import Mathlib

/-
  Verification development for the Heroes room/session server
  (authoritative engine in the socket.io server: room lifecycle, turn
  ordering, per-participant resource accounting, board occupancy,
  disconnect recovery).

  JavaScript Maps are modelled as insertion-ordered association lists
  (JS Map preserves insertion order; Map.set on an existing key keeps
  its position, Map.delete removes the entry).  JS numbers that the
  server keeps integral are modelled as Int (resource pools, board
  indices) or Nat (seats, turn index, which the server never makes
  negative).  Every socket.io handler returns an Option: some means
  the handler ran to its final broadcast(roomId) with the updated
  registry, none means one of the silent early returns fired, so the
  state is unchanged and no broadcast is produced.
-/

namespace Heroes

/-- A player record, as created by the joinRoom handler:
    pa / ph are the two resource pools (action points, health points). -/
structure Player where
  id : String
  name : String
  seat : Nat
  pa : Int
  ph : Int
  paMax : Int
  phMax : Int
deriving DecidableEq

/-- The per-room board state: two maps from participant id to board index
    (selections is the marker map, pawns the token map). -/
structure Board where
  selections : List (String × Int)
  pawns : List (String × Int)
deriving DecidableEq

/-- A room: players map, turn order, rotating index, board occupancy. -/
structure Room where
  id : String
  players : List (String × Player)
  order : List String
  turnIndex : Nat
  board : Board
deriving DecidableEq

/-- The room registry (the global rooms Map). -/
abbrev Rooms := List (String × Room)

/-- Map.get, over the insertion-ordered association list model. -/
def alGet {α : Type} : List (String × α) → String → Option α
  | [], _ => none
  | e :: rest, k => if e.1 = k then some e.2 else alGet rest k

/-- Map.set: overwrite in place when the key is present, append otherwise. -/
def alSet {α : Type} : List (String × α) → String → α → List (String × α)
  | [], k, v => [(k, v)]
  | e :: rest, k, v => if e.1 = k then (k, v) :: rest else e :: alSet rest k v

/-- Map.delete. -/
def alDelete {α : Type} : List (String × α) → String → List (String × α)
  | [], _ => []
  | e :: rest, k => if e.1 = k then alDelete rest k else e :: alDelete rest k

/-- Map.has. -/
def alHas {α : Type} (m : List (String × α)) (k : String) : Bool :=
  (alGet m k).isSome

/-- Array.prototype.indexOf, returning an index option instead of -1. -/
def findIdxOf : List String → String → Option Nat
  | [], _ => none
  | a :: l, x => if a = x then some 0 else (findIdxOf l x).map (fun n => n + 1)

/-- String.prototype.trim, written over the character list so that it is
    structurally recursive. -/
def jsTrim (s : String) : String :=
  (((s.toList.dropWhile Char.isWhitespace).reverse.dropWhile
      Char.isWhitespace).reverse).asString

/-- String.prototype.slice with start 0, i.e. take the first n characters. -/
def jsSlice (s : String) (n : Nat) : String :=
  (s.toList.take n).asString

/-- The room value installed by getOrCreateRoom for a previously unknown id. -/
def freshRoom (roomId : String) : Room :=
  { id := roomId
  , players := []
  , order := []
  , turnIndex := 0
  , board := { selections := [], pawns := [] } }

/-- getOrCreateRoom: returns the (possibly extended) registry and the room. -/
def getOrCreateRoom (rooms : Rooms) (roomId : String) : Rooms × Room :=
  match alGet rooms roomId with
  | some r => (rooms, r)
  | none => (alSet rooms roomId (freshRoom roomId), freshRoom roomId)

/-- currentId: null when the order is empty, otherwise
    order[turnIndex % order.length]. -/
def currentId (room : Room) : Option String :=
  if room.order.length = 0 then none
  else room.order[room.turnIndex % room.order.length]?

/-- startTurn: replenish the action points of the current player, when both
    the current id and its player record exist. -/
def startTurn (room : Room) : Room :=
  match currentId room with
  | none => room
  | some cid =>
    match alGet room.players cid with
    | none => room
    | some p =>
      { room with players := alSet room.players cid { p with pa := p.paMax } }

/-- The public snapshot, as the client receives it. -/
structure Snapshot where
  roomId : String
  players : List Player
  currentPlayerId : Option String
  board : Board
deriving DecidableEq

/-- The sort relation used by publicState: ascending seat number
    (the JS comparator (a, b) => a.seat - b.seat). -/
def seatLE (a b : Player) : Prop := a.seat ≤ b.seat

instance : DecidableRel seatLE := fun a b => Nat.decLe a.seat b.seat

instance : IsTotal Player seatLE := ⟨fun a b => Nat.le_total a.seat b.seat⟩

instance : IsTrans Player seatLE := ⟨fun _ _ _ hab hbc => Nat.le_trans hab hbc⟩

/-- Array.from(players.values()).sort((a, b) => a.seat - b.seat): a stable
    sort of the player values by seat. -/
def sortBySeat (l : List Player) : List Player :=
  List.insertionSort seatLE l

/-- publicState: players sorted by seat; the board lists are produced by
    Array.from(map.entries()).map(...), i.e. by iterating the two occupancy
    maps in their own (insertion) order. -/
def publicState (room : Room) : Snapshot :=
  { roomId := room.id
  , players := sortBySeat (room.players.map Prod.snd)
  , currentPlayerId := currentId room
  , board :=
    { selections := room.board.selections.map (fun e => (e.1, e.2))
    , pawns := room.board.pawns.map (fun e => (e.1, e.2)) } }

/-- Spec-side definition, written from the words of the spec rather than the
    source: the snapshot board lists re-derived by iterating players in seat
    order (never by iterating the occupancy maps directly). -/
def selectionsBySeatOrder (room : Room) : List (String × Int) :=
  (sortBySeat (room.players.map Prod.snd)).filterMap
    (fun p => (alGet room.board.selections p.id).map (fun i => (p.id, i)))

/-- The room-level part of the joinRoom handler, applied after the blank
    guard and the trimming: update the name when the participant is already
    present, otherwise append a player at the next seat and extend the order,
    starting the first turn when they are the first participant. -/
def joinRoomCore (sid nm : String) (room : Room) : Room :=
  match alGet room.players sid with
  | some p =>
    { room with players := alSet room.players sid { p with name := nm } }
  | none =>
    let seat := room.players.length + 1
    let pl : Player :=
      { id := sid, name := nm, seat := seat, pa := 0, ph := 0, paMax := 4, phMax := 6 }
    let room1 :=
      { room with players := alSet room.players sid pl
                , order := room.order ++ [sid] }
    if room1.order.length = 1 then startTurn { room1 with turnIndex := 0 }
    else room1

/-- The joinRoom handler.  The guard is the JS falsy test
    if (!roomId || !name) return, which for strings rejects exactly the
    empty string; the values are then trimmed and the name cut to 24
    characters. -/
def handleJoin (rooms : Rooms) (sid roomId name : String) : Option Rooms :=
  if roomId = "" ∨ name = "" then none
  else
    let rid := jsTrim roomId
    let nm := jsSlice (jsTrim name) 24
    let res := getOrCreateRoom rooms rid
    some (alSet res.1 rid (joinRoomCore sid nm res.2))

/-- The room-level part of the selectCell handler (marker placement, no turn
    restriction), after the registry lookup. -/
def selectCellRoom (sid : String) (index : Int) (room : Room) : Option Room :=
  if index < 0 then none
  else some { room with board :=
    { room.board with selections := alSet room.board.selections sid index } }

/-- The selectCell handler. -/
def handleSelectCell (rooms : Rooms) (sid roomId : String) (index : Int) :
    Option Rooms :=
  match alGet rooms roomId with
  | none => none
  | some room => (selectCellRoom sid index room).map (alSet rooms roomId)

/-- The room-level part of the setPawn handler: non-negative index, caller
    must be current, must hold a positive action point balance; then the
    point is spent and the pawn placed. -/
def setPawnRoom (sid : String) (index : Int) (room : Room) : Option Room :=
  if index < 0 then none
  else if currentId room = some sid then
    match alGet room.players sid with
    | none => none
    | some me =>
      if me.pa ≤ 0 then none
      else some
        { room with
          players := alSet room.players sid { me with pa := me.pa - 1 }
        , board := { room.board with pawns := alSet room.board.pawns sid index } }
  else none

/-- The setPawn handler. -/
def handleSetPawn (rooms : Rooms) (sid roomId : String) (index : Int) :
    Option Rooms :=
  match alGet rooms roomId with
  | none => none
  | some room => (setPawnRoom sid index room).map (alSet rooms roomId)

/-- The room-level part of the meditate handler: caller must be current and
    must hold a positive action point balance; then one point is spent and
    health is restored by 2, clamped to the cap. -/
def meditateRoom (sid : String) (room : Room) : Option Room :=
  if currentId room = some sid then
    match alGet room.players sid with
    | none => none
    | some me =>
      if me.pa ≤ 0 then none
      else
        let me2 : Player := { me with pa := me.pa - 1, ph := min (me.ph + 2) me.phMax }
        some { room with players := alSet room.players sid me2 }
  else none

/-- The meditate handler. -/
def handleMeditate (rooms : Rooms) (sid roomId : String) : Option Rooms :=
  match alGet rooms roomId with
  | none => none
  | some room => (meditateRoom sid room).map (alSet rooms roomId)

/-- The room-level part of the endTurn handler: the caller must be the
    current player; the index advances modulo the order length and the new
    current player gets the turn-start replenishment. -/
def endTurnRoom (sid : String) (room : Room) : Option Room :=
  if room.order.length = 0 then none
  else if currentId room = some sid then
    some (startTurn
      { room with turnIndex := (room.turnIndex + 1) % room.order.length })
  else none

/-- The endTurn handler. -/
def handleEndTurn (rooms : Rooms) (sid roomId : String) : Option Rooms :=
  match alGet rooms roomId with
  | none => none
  | some room => (endTurnRoom sid room).map (alSet rooms roomId)

/-- The per-room body of the disconnect handler, for a room the departing
    socket belongs to.  none means the room became empty and was deleted
    from the registry (the continue path, which skips the broadcast);
    some room2 means the room survives and is broadcast. -/
def disconnectStep (sid : String) (room : Room) : Option Room :=
  let room1 :=
    { room with
      players := alDelete room.players sid
    , board :=
      { selections := alDelete room.board.selections sid
      , pawns := alDelete room.board.pawns sid } }
  match findIdxOf room.order sid with
  | none => some room1
  | some idx =>
    let order2 := room.order.eraseIdx idx
    if order2.length = 0 then none
    else
      let ti1 :=
        if idx ≤ room.turnIndex ∧ 0 < room.turnIndex then room.turnIndex - 1
        else room.turnIndex
      let ti2 := if order2.length ≤ ti1 then 0 else ti1
      let room2 := { room1 with order := order2, turnIndex := ti2 }
      if currentId room = some sid then startTurn room2 else room2

/-- The disconnect handler: walk every room of the registry; rooms the
    socket is not in are untouched, emptied rooms are removed without a
    broadcast, surviving rooms are updated and their id recorded in the
    broadcast list (second component). -/
def handleDisconnect (sid : String) : Rooms → Rooms × List String
  | [] => ([], [])
  | e :: rest =>
    let res := handleDisconnect sid rest
    if alHas e.2.players sid then
      match disconnectStep sid e.2 with
      | none => res
      | some room2 => ((e.1, room2) :: res.1, e.1 :: res.2)
    else (e :: res.1, res.2)

/-- The inbound command surface of the server. -/
inductive Cmd where
  | join (sid roomId name : String)
  | selectCell (sid roomId : String) (index : Int)
  | setPawn (sid roomId : String) (index : Int)
  | meditate (sid roomId : String)
  | endTurn (sid roomId : String)
  | disconnect (sid : String)

/-- Apply one command to the registry; a rejected command (handler result
    none) leaves the registry unchanged. -/
def applyCmd (rooms : Rooms) : Cmd → Rooms
  | Cmd.join sid rid nm => (handleJoin rooms sid rid nm).getD rooms
  | Cmd.selectCell sid rid i => (handleSelectCell rooms sid rid i).getD rooms
  | Cmd.setPawn sid rid i => (handleSetPawn rooms sid rid i).getD rooms
  | Cmd.meditate sid rid => (handleMeditate rooms sid rid).getD rooms
  | Cmd.endTurn sid rid => (handleEndTurn rooms sid rid).getD rooms
  | Cmd.disconnect sid => (handleDisconnect sid rooms).1

/-- Run a command sequence from a registry state. -/
def runCmds (rooms : Rooms) (cs : List Cmd) : Rooms :=
  cs.foldl applyCmd rooms

/-- Room well-formedness: the turn order has no duplicates, every id of the
    order has a player record, and every player satisfies the action-point
    bounds. -/
def RoomWF (room : Room) : Prop :=
  room.order.Nodup ∧
  (∀ sid ∈ room.order, (alGet room.players sid).isSome = true) ∧
  (∀ e ∈ room.players, 0 ≤ e.2.pa ∧ e.2.pa ≤ e.2.paMax)

/-- Registry well-formedness: every room in the registry is well-formed. -/
def RegWF (rooms : Rooms) : Prop :=
  ∀ e ∈ rooms, RoomWF e.2

/-! ### Concrete scenario states, used by the claim theorems and witnesses -/

/-- Placeholder player used only to deconstruct Option results. -/
def defPlayer : Player :=
  { id := "", name := "", seat := 0, pa := 0, ph := 0, paMax := 0, phMax := 0 }

/-- a, b and c join room R; a ends the turn, making b (the middle of the
    order) current; then b disconnects while current. -/
def c1Cmds : List Cmd :=
  [Cmd.join "a" "R" "Ann", Cmd.join "b" "R" "Bob", Cmd.join "c" "R" "Cid",
   Cmd.endTurn "a" "R", Cmd.disconnect "b"]

/-- The room R after the c1Cmds scenario. -/
def c1Room : Room := (alGet (runCmds [] c1Cmds) "R").getD (freshRoom "R")

/-- Solo room: A joins (and is replenished as first player), then spends one
    action point by placing a pawn. -/
def c2Cmds : List Cmd := [Cmd.join "A" "R" "Al", Cmd.setPawn "A" "R" 3]

def c2Rooms : Rooms := runCmds [] c2Cmds

def c2Room : Room := (alGet c2Rooms "R").getD (freshRoom "R")

/-- A and B join; A is current, so B is a non-current caller. -/
def c3Cmds : List Cmd := [Cmd.join "A" "R" "Al", Cmd.join "B" "R" "Bo"]

def c3Rooms : Rooms := runCmds [] c3Cmds

def c3Room : Room := (alGet c3Rooms "R").getD (freshRoom "R")

/-- A and B join; A spends points on a pawn and a meditation, then ends the
    turn so that B is replenished. -/
def c4Cmds : List Cmd :=
  [Cmd.join "A" "R" "Al", Cmd.join "B" "R" "Bo", Cmd.setPawn "A" "R" 3,
   Cmd.meditate "A" "R", Cmd.endTurn "A" "R"]

def c4Room : Room := (alGet (runCmds [] c4Cmds) "R").getD (freshRoom "R")

def c4P : Player := (alGet c4Room.players "A").getD defPlayer

/-- A (seat 1) and B (seat 2) join; B places a marker first, then A, so the
    selections map insertion order is the reverse of the seat order. -/
def c5Cmds : List Cmd :=
  [Cmd.join "A" "R" "Al", Cmd.join "B" "R" "Bo",
   Cmd.selectCell "B" "R" 3, Cmd.selectCell "A" "R" 5]

def c5Room : Room := (alGet (runCmds [] c5Cmds) "R").getD (freshRoom "R")

/-- A single participant A in room R. -/
def c7Cmds : List Cmd := [Cmd.join "A" "R" "Al"]

def c7Rooms : Rooms := runCmds [] c7Cmds

def c7Room : Room := (alGet c7Rooms "R").getD (freshRoom "R")

def c7P : Player := (alGet c7Room.players "A").getD defPlayer

/-- A and B join; A ends the turn so that B is current. -/
def c8Cmds : List Cmd :=
  [Cmd.join "A" "R" "Al", Cmd.join "B" "R" "Bo", Cmd.endTurn "A" "R"]

def c8Room : Room := (alGet (runCmds [] c8Cmds) "R").getD (freshRoom "R")

/-- A two-player room used for the rejoin frame-condition witness. -/
def c9P : Player :=
  { id := "A", name := "Old", seat := 1, pa := 2, ph := 3, paMax := 4, phMax := 6 }

def c9Room : Room :=
  { id := "R"
  , players :=
      [("A", c9P),
       ("B", { id := "B", name := "Bee", seat := 2, pa := 0, ph := 0
             , paMax := 4, phMax := 6 })]
  , order := ["A", "B"]
  , turnIndex := 0
  , board := { selections := [], pawns := [] } }

/-- A then B join (seats 1 and 2), A leaves, C joins: the seat counter is
    the live player count plus one, so C is also given seat 2. -/
def c10Cmds : List Cmd :=
  [Cmd.join "A" "R" "Al", Cmd.join "B" "R" "Bo", Cmd.disconnect "A",
   Cmd.join "C" "R" "Cy"]

def c10Room : Room := (alGet (runCmds [] c10Cmds) "R").getD (freshRoom "R")

/-! ### Association list lemmas -/

theorem alGet_alSet_self {α : Type} (m : List (String × α)) (k : String) (v : α) :
    alGet (alSet m k v) k = some v := by
  induction m with
  | nil => simp [alSet, alGet]
  | cons e rest ih =>
    by_cases h : e.1 = k
    · simp [alSet, alGet, h]
    · simp [alSet, alGet, h, ih]

theorem alGet_alSet_ne {α : Type} (m : List (String × α)) (k k' : String) (v : α)
    (hne : k' ≠ k) : alGet (alSet m k v) k' = alGet m k' := by
  have hkk : ¬ (k = k') := fun hh => hne hh.symm
  induction m with
  | nil => simp [alSet, alGet, hkk]
  | cons e rest ih =>
    by_cases h : e.1 = k
    · have he' : ¬ (e.1 = k') := fun hh => hkk (h.symm.trans hh)
      simp [alSet, alGet, h, hkk, he']
    · simp [alSet, alGet, h, ih]

theorem alGet_mem {α : Type} {m : List (String × α)} {k : String} {v : α}
    (h : alGet m k = some v) : (k, v) ∈ m := by
  induction m with
  | nil => simp [alGet] at h
  | cons f rest ih =>
    obtain ⟨f1, f2⟩ := f
    by_cases he : f1 = k
    · subst he
      rw [alGet, if_pos rfl, Option.some.injEq] at h
      subst h
      exact List.mem_cons_self _ _
    · rw [alGet, if_neg he] at h
      exact List.mem_cons_of_mem _ (ih h)

theorem mem_alSet {α : Type} {m : List (String × α)} {k : String} {v : α}
    {e : String × α} (h : e ∈ alSet m k v) : e = (k, v) ∨ e ∈ m := by
  induction m with
  | nil =>
    rw [alSet] at h
    exact Or.inl (List.mem_singleton.mp h)
  | cons f rest ih =>
    by_cases hf : f.1 = k
    · rw [alSet, if_pos hf] at h
      rcases List.mem_cons.mp h with rfl | h
      · exact Or.inl rfl
      · exact Or.inr (List.mem_cons_of_mem _ h)
    · rw [alSet, if_neg hf] at h
      rcases List.mem_cons.mp h with rfl | h
      · exact Or.inr (List.mem_cons_self _ _)
      · rcases ih h with h1 | h1
        · exact Or.inl h1
        · exact Or.inr (List.mem_cons_of_mem _ h1)

theorem mem_alDelete {α : Type} {m : List (String × α)} {k : String}
    {e : String × α} (h : e ∈ alDelete m k) : e ∈ m := by
  induction m with
  | nil =>
    rw [alDelete] at h
    cases h
  | cons f rest ih =>
    by_cases hf : f.1 = k
    · rw [alDelete, if_pos hf] at h
      exact List.mem_cons_of_mem _ (ih h)
    · rw [alDelete, if_neg hf] at h
      rcases List.mem_cons.mp h with rfl | h
      · exact List.mem_cons_self _ _
      · exact List.mem_cons_of_mem _ (ih h)

theorem alGet_alDelete_ne {α : Type} (m : List (String × α)) (k k' : String)
    (hne : k' ≠ k) : alGet (alDelete m k) k' = alGet m k' := by
  have hkk : ¬ (k = k') := fun hh => hne hh.symm
  induction m with
  | nil => simp [alDelete]
  | cons e rest ih =>
    by_cases h : e.1 = k
    · have he' : ¬ (e.1 = k') := fun hh => hne (hh.symm.trans h)
      simp [alDelete, alGet, h, he', hkk, ih]
    · simp [alDelete, alGet, h, ih]

theorem alGet_isSome_alSet {α : Type} {m : List (String × α)} {x k : String}
    {v : α} (h : (alGet m x).isSome = true) :
    (alGet (alSet m k v) x).isSome = true := by
  by_cases hx : x = k
  · rw [hx, alGet_alSet_self]
    rfl
  · rw [alGet_alSet_ne m k x v hx]
    exact h

theorem alGet_eq_none_of_not_mem {α : Type} {m : List (String × α)} {k : String}
    (h : k ∉ m.map Prod.fst) : alGet m k = none := by
  induction m with
  | nil => rfl
  | cons e rest ih =>
    simp only [List.map_cons, List.mem_cons] at h
    push_neg at h
    rw [alGet, if_neg (fun hh => h.1 hh.symm)]
    exact ih h.2

/-! ### findIdxOf and eraseIdx lemmas -/

theorem findIdxOf_none_not_mem {l : List String} {x : String}
    (h : findIdxOf l x = none) : x ∉ l := by
  induction l with
  | nil => simp
  | cons a t ih =>
    rw [findIdxOf] at h
    by_cases ha : a = x
    · rw [if_pos ha] at h
      cases h
    · rw [if_neg ha, Option.map_eq_none'] at h
      intro hmem
      rcases List.mem_cons.mp hmem with rfl | hmem
      · exact ha rfl
      · exact ih h hmem

theorem not_mem_eraseIdx_of_nodup {l : List String} {x : String} {i : Nat}
    (hnd : l.Nodup) (h : findIdxOf l x = some i) : x ∉ l.eraseIdx i := by
  induction l generalizing i with
  | nil => simp [findIdxOf] at h
  | cons a t ih =>
    rw [findIdxOf] at h
    rw [List.nodup_cons] at hnd
    by_cases ha : a = x
    · rw [if_pos ha] at h
      cases h
      simpa [List.eraseIdx_cons_zero, ha] using hnd.1
    · rw [if_neg ha] at h
      rcases Option.map_eq_some'.mp h with ⟨j, hj, rfl⟩
      rw [List.eraseIdx_cons_succ, List.mem_cons]
      push_neg
      exact ⟨fun hh => ha hh.symm, ih hnd.2 hj⟩

theorem mem_of_mem_eraseIdx {α : Type} {l : List α} {i : Nat} {x : α}
    (h : x ∈ l.eraseIdx i) : x ∈ l :=
  (List.eraseIdx_sublist l i).subset h

/-! ### currentId and startTurn lemmas -/

theorem currentId_congr {r1 r2 : Room} (ho : r1.order = r2.order)
    (ht : r1.turnIndex = r2.turnIndex) : currentId r1 = currentId r2 := by
  unfold currentId
  rw [ho, ht]

theorem currentId_isSome {room : Room} (h : room.order.length ≠ 0) :
    (currentId room).isSome = true := by
  have hlt : room.turnIndex % room.order.length < room.order.length :=
    Nat.mod_lt _ (Nat.pos_of_ne_zero h)
  unfold currentId
  rw [if_neg h, List.getElem?_eq_getElem hlt]
  rfl

theorem currentId_mem {room : Room} {cid : String}
    (h : currentId room = some cid) : cid ∈ room.order := by
  unfold currentId at h
  by_cases hl : room.order.length = 0
  · rw [if_pos hl] at h
    cases h
  · rw [if_neg hl] at h
    rcases List.getElem?_eq_some.mp h with ⟨hlt, hget⟩
    exact hget ▸ List.getElem_mem hlt

theorem currentId_eq_none_iff {room : Room} :
    currentId room = none ↔ room.order = [] := by
  constructor
  · intro h
    by_contra hne
    have hl : room.order.length ≠ 0 := fun hh => hne (List.length_eq_zero.mp hh)
    have h4 : (currentId room).isSome = true := currentId_isSome hl
    rw [h] at h4
    cases h4
  · intro h
    unfold currentId
    rw [h]
    rfl

theorem startTurn_eq_of {room : Room} {cid : String} {p : Player}
    (hc : currentId room = some cid) (hp : alGet room.players cid = some p) :
    startTurn room =
      { room with players := alSet room.players cid { p with pa := p.paMax } } := by
  simp only [startTurn, hc, hp]

theorem startTurn_order (room : Room) : (startTurn room).order = room.order := by
  rcases hc : currentId room with _ | cid
  · simp [startTurn, hc]
  · rcases hp : alGet room.players cid with _ | p
    · simp [startTurn, hc, hp]
    · simp [startTurn, hc, hp]

theorem startTurn_turnIndex (room : Room) :
    (startTurn room).turnIndex = room.turnIndex := by
  rcases hc : currentId room with _ | cid
  · simp [startTurn, hc]
  · rcases hp : alGet room.players cid with _ | p
    · simp [startTurn, hc, hp]
    · simp [startTurn, hc, hp]

theorem currentId_startTurn (room : Room) :
    currentId (startTurn room) = currentId room :=
  currentId_congr (startTurn_order room) (startTurn_turnIndex room)

/-! ### Well-formedness preservation -/

theorem freshRoom_WF (roomId : String) : RoomWF (freshRoom roomId) := by
  refine ⟨List.nodup_nil, ?_, ?_⟩
  · intro sid hsid
    cases hsid
  · intro e he
    cases he

theorem RoomWF_updatePlayer {room : Room} (h : RoomWF room) {sid : String}
    {q : Player} (hq : 0 ≤ q.pa ∧ q.pa ≤ q.paMax) :
    RoomWF { room with players := alSet room.players sid q } := by
  obtain ⟨hnd, hord, hap⟩ := h
  refine ⟨hnd, ?_, ?_⟩
  · intro x hx
    exact alGet_isSome_alSet (hord x hx)
  · intro e he
    rcases mem_alSet he with rfl | he'
    · exact hq
    · exact hap e he'

theorem startTurn_WF {room : Room} (h : RoomWF room) : RoomWF (startTurn room) := by
  rcases hc : currentId room with _ | cid
  · rw [startTurn, hc]
    exact h
  · rcases hp : alGet room.players cid with _ | p
    · rw [startTurn, hc]
      simp only [hp]
      exact h
    · rw [startTurn_eq_of hc hp]
      have hmem := alGet_mem hp
      have hbounds := h.2.2 (cid, p) hmem
      exact RoomWF_updatePlayer h
        ⟨le_trans hbounds.1 hbounds.2, le_refl p.paMax⟩

theorem joinRoomCore_WF {room : Room} (h : RoomWF room) (sid nm : String) :
    RoomWF (joinRoomCore sid nm room) := by
  rcases hp : alGet room.players sid with _ | p
  · have hnotin : sid ∉ room.order := by
      intro hmem
      have := h.2.1 sid hmem
      rw [hp] at this
      cases this
    rw [joinRoomCore]
    simp only [hp]
    have hWF1 : RoomWF
        { room with
          players := alSet room.players sid
            { id := sid, name := nm, seat := room.players.length + 1
            , pa := 0, ph := 0, paMax := 4, phMax := 6 }
        , order := room.order ++ [sid] } := by
      obtain ⟨hnd, hord, hap⟩ := h
      refine ⟨?_, ?_, ?_⟩
      · rw [List.nodup_append]
        exact ⟨hnd, List.nodup_singleton sid,
          fun a ha hb => hnotin ((List.mem_singleton.mp hb) ▸ ha)⟩
      · intro x hx
        rcases List.mem_append.mp hx with hx | hx
        · exact alGet_isSome_alSet (hord x hx)
        · rw [List.mem_singleton.mp hx, alGet_alSet_self]
          rfl
      · intro e he
        rcases mem_alSet he with rfl | he'
        · exact ⟨le_refl 0, by norm_num⟩
        · exact hap e he'
    by_cases hlen : (room.order ++ [sid]).length = 1
    · simp only [hlen, if_pos]
      exact startTurn_WF hWF1
    · simp only [hlen, if_neg, ite_false]
      exact hWF1
  · rw [joinRoomCore]
    simp only [hp]
    have hbounds := h.2.2 (sid, p) (alGet_mem hp)
    exact RoomWF_updatePlayer h hbounds

theorem selectCellRoom_WF {room r2 : Room} (h : RoomWF room) {sid : String}
    {index : Int} (he : selectCellRoom sid index room = some r2) : RoomWF r2 := by
  rw [selectCellRoom] at he
  by_cases hi : index < 0
  · rw [if_pos hi] at he
    cases he
  · rw [if_neg hi] at he
    cases he
    exact h

theorem setPawnRoom_WF {room r2 : Room} (h : RoomWF room) {sid : String}
    {index : Int} (he : setPawnRoom sid index room = some r2) : RoomWF r2 := by
  rw [setPawnRoom] at he
  by_cases hi : index < 0
  · rw [if_pos hi] at he
    cases he
  · rw [if_neg hi] at he
    by_cases hc : currentId room = some sid
    · rw [if_pos hc] at he
      rcases hp : alGet room.players sid with _ | me
      · simp only [hp] at he
        cases he
      · simp only [hp] at he
        by_cases hpa : me.pa ≤ 0
        · rw [if_pos hpa] at he
          cases he
        · rw [if_neg hpa] at he
          cases he
          have hbounds := h.2.2 (sid, me) (alGet_mem hp)
          have hb2 : me.pa ≤ me.paMax := hbounds.2
          refine RoomWF_updatePlayer h ⟨?_, ?_⟩
          · show (0 : Int) ≤ me.pa - 1
            omega
          · show me.pa - 1 ≤ me.paMax
            omega
    · rw [if_neg hc] at he
      cases he

theorem meditateRoom_WF {room r2 : Room} (h : RoomWF room) {sid : String}
    (he : meditateRoom sid room = some r2) : RoomWF r2 := by
  rw [meditateRoom] at he
  by_cases hc : currentId room = some sid
  · rw [if_pos hc] at he
    rcases hp : alGet room.players sid with _ | me
    · simp only [hp] at he
      cases he
    · simp only [hp] at he
      by_cases hpa : me.pa ≤ 0
      · rw [if_pos hpa] at he
        cases he
      · rw [if_neg hpa] at he
        cases he
        have hbounds := h.2.2 (sid, me) (alGet_mem hp)
        have hb2 : me.pa ≤ me.paMax := hbounds.2
        refine RoomWF_updatePlayer h ⟨?_, ?_⟩
        · show (0 : Int) ≤ me.pa - 1
          omega
        · show me.pa - 1 ≤ me.paMax
          omega
  · rw [if_neg hc] at he
    cases he

theorem endTurnRoom_WF {room r2 : Room} (h : RoomWF room) {sid : String}
    (he : endTurnRoom sid room = some r2) : RoomWF r2 := by
  rw [endTurnRoom] at he
  by_cases hl : room.order.length = 0
  · rw [if_pos hl] at he
    cases he
  · rw [if_neg hl] at he
    by_cases hc : currentId room = some sid
    · rw [if_pos hc] at he
      cases he
      exact startTurn_WF h
    · rw [if_neg hc] at he
      cases he

theorem disconnectStep_WF {room r2 : Room} (h : RoomWF room) {sid : String}
    (he : disconnectStep sid room = some r2) : RoomWF r2 := by
  obtain ⟨hnd, hord, hap⟩ := h
  rw [disconnectStep] at he
  rcases hidx : findIdxOf room.order sid with _ | idx
  · simp only [hidx] at he
    cases he
    have hnotin := findIdxOf_none_not_mem hidx
    refine ⟨hnd, ?_, ?_⟩
    · intro x hx
      have hxne : x ≠ sid := fun hh => hnotin (hh ▸ hx)
      rw [alGet_alDelete_ne _ sid x hxne]
      exact hord x hx
    · intro e he2
      exact hap e (mem_alDelete he2)
  · simp only [hidx] at he
    by_cases hzero : (room.order.eraseIdx idx).length = 0
    · rw [if_pos hzero] at he
      cases he
    · rw [if_neg hzero] at he
      have hWF2 : RoomWF
          { room with
            players := alDelete room.players sid
          , board :=
            { selections := alDelete room.board.selections sid
            , pawns := alDelete room.board.pawns sid }
          , order := room.order.eraseIdx idx
          , turnIndex :=
              if (room.order.eraseIdx idx).length ≤
                  (if idx ≤ room.turnIndex ∧ 0 < room.turnIndex then
                    room.turnIndex - 1 else room.turnIndex) then 0
              else if idx ≤ room.turnIndex ∧ 0 < room.turnIndex then
                room.turnIndex - 1 else room.turnIndex } := by
        refine ⟨?_, ?_, ?_⟩
        · exact (List.eraseIdx_sublist room.order idx).nodup hnd
        · intro x hx
          have hxne : x ≠ sid :=
            fun hh => not_mem_eraseIdx_of_nodup hnd hidx (hh ▸ hx)
          rw [alGet_alDelete_ne _ sid x hxne]
          exact hord x (mem_of_mem_eraseIdx hx)
        · intro e he2
          exact hap e (mem_alDelete he2)
      by_cases hcur : currentId room = some sid
      · rw [if_pos hcur] at he
        cases he
        exact startTurn_WF hWF2
      · rw [if_neg hcur] at he
        cases he
        exact hWF2

theorem RegWF_alSet {rooms : Rooms} (h : RegWF rooms) {rid : String}
    {room : Room} (hr : RoomWF room) : RegWF (alSet rooms rid room) := by
  intro e he
  rcases mem_alSet he with rfl | he'
  · exact hr
  · exact h e he'

theorem RegWF_room {rooms : Rooms} (h : RegWF rooms) {rid : String}
    {room : Room} (hr : alGet rooms rid = some room) : RoomWF room :=
  h (rid, room) (alGet_mem hr)

theorem handleJoin_WF {rooms rooms2 : Rooms} (h : RegWF rooms)
    {sid roomId name : String} (he : handleJoin rooms sid roomId name = some rooms2) :
    RegWF rooms2 := by
  rw [handleJoin] at he
  by_cases hg : roomId = "" ∨ name = ""
  · rw [if_pos hg] at he
    cases he
  · rw [if_neg hg] at he
    simp only [Option.some.injEq] at he
    subst he
    rcases hfind : alGet rooms (jsTrim roomId) with _ | r
    · rw [getOrCreateRoom]
      simp only [hfind]
      exact RegWF_alSet (RegWF_alSet h (freshRoom_WF _))
        (joinRoomCore_WF (freshRoom_WF _) _ _)
    · rw [getOrCreateRoom]
      simp only [hfind]
      exact RegWF_alSet h (joinRoomCore_WF (RegWF_room h hfind) _ _)

theorem handleSelectCell_WF {rooms rooms2 : Rooms} (h : RegWF rooms)
    {sid roomId : String} {index : Int}
    (he : handleSelectCell rooms sid roomId index = some rooms2) : RegWF rooms2 := by
  rw [handleSelectCell] at he
  rcases hfind : alGet rooms roomId with _ | room
  · simp only [hfind] at he
    cases he
  · simp only [hfind] at he
    rcases Option.map_eq_some'.mp he with ⟨r2, hr, rfl⟩
    exact RegWF_alSet h (selectCellRoom_WF (RegWF_room h hfind) hr)

theorem handleSetPawn_WF {rooms rooms2 : Rooms} (h : RegWF rooms)
    {sid roomId : String} {index : Int}
    (he : handleSetPawn rooms sid roomId index = some rooms2) : RegWF rooms2 := by
  rw [handleSetPawn] at he
  rcases hfind : alGet rooms roomId with _ | room
  · simp only [hfind] at he
    cases he
  · simp only [hfind] at he
    rcases Option.map_eq_some'.mp he with ⟨r2, hr, rfl⟩
    exact RegWF_alSet h (setPawnRoom_WF (RegWF_room h hfind) hr)

theorem handleMeditate_WF {rooms rooms2 : Rooms} (h : RegWF rooms)
    {sid roomId : String} (he : handleMeditate rooms sid roomId = some rooms2) :
    RegWF rooms2 := by
  rw [handleMeditate] at he
  rcases hfind : alGet rooms roomId with _ | room
  · simp only [hfind] at he
    cases he
  · simp only [hfind] at he
    rcases Option.map_eq_some'.mp he with ⟨r2, hr, rfl⟩
    exact RegWF_alSet h (meditateRoom_WF (RegWF_room h hfind) hr)

theorem handleEndTurn_WF {rooms rooms2 : Rooms} (h : RegWF rooms)
    {sid roomId : String} (he : handleEndTurn rooms sid roomId = some rooms2) :
    RegWF rooms2 := by
  rw [handleEndTurn] at he
  rcases hfind : alGet rooms roomId with _ | room
  · simp only [hfind] at he
    cases he
  · simp only [hfind] at he
    rcases Option.map_eq_some'.mp he with ⟨r2, hr, rfl⟩
    exact RegWF_alSet h (endTurnRoom_WF (RegWF_room h hfind) hr)

theorem handleDisconnect_WF {rooms : Rooms} (h : RegWF rooms) (sid : String) :
    RegWF (handleDisconnect sid rooms).1 := by
  induction rooms with
  | nil =>
    intro e he
    cases he
  | cons f rest ih =>
    have hf : RoomWF f.2 := h f (List.mem_cons_self f rest)
    have hrest : RegWF rest := fun e he => h e (List.mem_cons_of_mem f he)
    rw [handleDisconnect]
    by_cases hhas : alHas f.2.players sid = true
    · simp only [hhas, if_true]
      rcases hstep : disconnectStep sid f.2 with _ | room2
      · exact ih hrest
      · intro e he
        rcases List.mem_cons.mp he with rfl | he
        · exact disconnectStep_WF hf hstep
        · exact ih hrest e he
    · simp only [hhas, if_false]
      intro e he
      rcases List.mem_cons.mp he with rfl | he
      · exact hf
      · exact ih hrest e he

theorem applyCmd_WF {rooms : Rooms} (h : RegWF rooms) (c : Cmd) :
    RegWF (applyCmd rooms c) := by
  cases c with
  | join sid rid nm =>
    rw [applyCmd]
    rcases he : handleJoin rooms sid rid nm with _ | rooms2
    · exact h
    · exact handleJoin_WF h he
  | selectCell sid rid i =>
    rw [applyCmd]
    rcases he : handleSelectCell rooms sid rid i with _ | rooms2
    · exact h
    · exact handleSelectCell_WF h he
  | setPawn sid rid i =>
    rw [applyCmd]
    rcases he : handleSetPawn rooms sid rid i with _ | rooms2
    · exact h
    · exact handleSetPawn_WF h he
  | meditate sid rid =>
    rw [applyCmd]
    rcases he : handleMeditate rooms sid rid with _ | rooms2
    · exact h
    · exact handleMeditate_WF h he
  | endTurn sid rid =>
    rw [applyCmd]
    rcases he : handleEndTurn rooms sid rid with _ | rooms2
    · exact h
    · exact handleEndTurn_WF h he
  | disconnect sid =>
    rw [applyCmd]
    exact handleDisconnect_WF h sid

theorem runCmds_WF_of {rooms : Rooms} (h : RegWF rooms) (cs : List Cmd) :
    RegWF (runCmds rooms cs) := by
  induction cs generalizing rooms with
  | nil => exact h
  | cons c cs ih => exact ih (applyCmd_WF h c)

theorem runCmds_WF (cs : List Cmd) : RegWF (runCmds [] cs) :=
  runCmds_WF_of (fun e he => absurd he (List.not_mem_nil e)) cs

/-! ### Further handler-shape lemmas -/

theorem map_entry_id {α β : Type} (l : List (α × β)) :
    l.map (fun e => (e.1, e.2)) = l := by
  induction l with
  | nil => rfl
  | cons e t ih => simp [ih]

theorem setPawnRoom_nonCurrent {room : Room} {sid : String} {index : Int}
    (hne : currentId room ≠ some sid) : setPawnRoom sid index room = none := by
  rw [setPawnRoom]
  by_cases hi : index < 0
  · rw [if_pos hi]
  · rw [if_neg hi, if_neg hne]

theorem meditateRoom_nonCurrent {room : Room} {sid : String}
    (hne : currentId room ≠ some sid) : meditateRoom sid room = none := by
  rw [meditateRoom, if_neg hne]

theorem endTurnRoom_eq {room : Room} {sid : String}
    (hl : room.order.length ≠ 0) (hcur : currentId room = some sid) :
    endTurnRoom sid room =
      some (startTurn
        { room with turnIndex := (room.turnIndex + 1) % room.order.length }) := by
  rw [endTurnRoom, if_neg hl, if_pos hcur]

theorem getOrCreateRoom_of_none {rooms : Rooms} {k : String}
    (h : alGet rooms k = none) : (getOrCreateRoom rooms k).2 = freshRoom k := by
  rw [getOrCreateRoom]
  simp only [h]

theorem disconnectStep_solo {sid : String} {room : Room}
    (horder : room.order = [sid]) : disconnectStep sid room = none := by
  rw [disconnectStep, horder]
  simp [findIdxOf]

theorem handleDisconnect_keys {sid k : String} {rooms : Rooms}
    (h : k ∈ (handleDisconnect sid rooms).1.map Prod.fst) :
    k ∈ rooms.map Prod.fst := by
  induction rooms with
  | nil =>
    rw [handleDisconnect] at h
    cases h
  | cons f rest ih =>
    rw [handleDisconnect] at h
    by_cases hhas : alHas f.2.players sid = true
    · simp only [hhas, if_true] at h
      rcases hstep : disconnectStep sid f.2 with _ | room2
      · rw [hstep] at h
        exact List.mem_cons_of_mem _ (ih h)
      · rw [hstep] at h
        rcases List.mem_cons.mp h with rfl | h
        · exact List.mem_cons_self _ _
        · exact List.mem_cons_of_mem _ (ih h)
    · simp only [hhas, if_false] at h
      rcases List.mem_cons.mp h with rfl | h
      · exact List.mem_cons_self _ _
      · exact List.mem_cons_of_mem _ (ih h)

theorem handleDisconnect_bcast {sid k : String} {rooms : Rooms}
    (h : k ∈ (handleDisconnect sid rooms).2) : k ∈ rooms.map Prod.fst := by
  induction rooms with
  | nil =>
    rw [handleDisconnect] at h
    cases h
  | cons f rest ih =>
    rw [handleDisconnect] at h
    by_cases hhas : alHas f.2.players sid = true
    · simp only [hhas, if_true] at h
      rcases hstep : disconnectStep sid f.2 with _ | room2
      · rw [hstep] at h
        exact List.mem_cons_of_mem _ (ih h)
      · rw [hstep] at h
        rcases List.mem_cons.mp h with rfl | h
        · exact List.mem_cons_self _ _
        · exact List.mem_cons_of_mem _ (ih h)
    · simp only [hhas, if_false] at h
      exact List.mem_cons_of_mem _ (ih h)

theorem disconnect_last_aux {sid roomId : String} {room : Room} {p : Player}
    (hplayers : room.players = [(sid, p)]) (horder : room.order = [sid]) :
    ∀ rooms : Rooms, (rooms.map Prod.fst).Nodup →
      alGet rooms roomId = some room →
      alGet (handleDisconnect sid rooms).1 roomId = none ∧
      roomId ∉ (handleDisconnect sid rooms).2 := by
  intro rooms
  induction rooms with
  | nil =>
    intro _ hroom
    cases hroom
  | cons f rest ih =>
    intro hnd hroom
    rw [List.map_cons, List.nodup_cons] at hnd
    rw [handleDisconnect]
    by_cases hk : f.1 = roomId
    · rw [alGet, if_pos hk] at hroom
      have hr : f.2 = room := Option.some.inj hroom
      have hhas : alHas f.2.players sid = true := by
        rw [hr, alHas, hplayers, alGet, if_pos rfl]
        rfl
      have hstep : disconnectStep sid f.2 = none := by
        rw [hr]
        exact disconnectStep_solo horder
      simp only [hhas, if_true, hstep]
      have hnotin : roomId ∉ rest.map Prod.fst := hk ▸ hnd.1
      constructor
      · exact alGet_eq_none_of_not_mem
          (fun hmem => hnotin (handleDisconnect_keys hmem))
      · exact fun hmem => hnotin (handleDisconnect_bcast hmem)
    · rw [alGet, if_neg hk] at hroom
      obtain ⟨h1, h2⟩ := ih hnd.2 hroom
      by_cases hhas : alHas f.2.players sid = true
      · simp only [hhas, if_true]
        rcases hstep : disconnectStep sid f.2 with _ | room2
        · exact ⟨h1, h2⟩
        · constructor
          · rw [alGet, if_neg hk]
            exact h1
          · intro hmem
            rcases List.mem_cons.mp hmem with heq | hmem
            · exact hk heq.symm
            · exact h2 hmem
      · simp only [hhas, if_false]
        constructor
        · show alGet (f :: (handleDisconnect sid rest).1) roomId = none
          rw [alGet, if_neg hk]
          exact h1
        · exact h2

/-! ### Claim theorems -/

/-- Claim C1 (code-bug evidence): in the three-participant room with order
    a, b, c and b current (the middle position), the disconnect of b makes
    a — the participant BEFORE the departed one — current and replenishes
    a, instead of advancing play to the next participant c as the claim
    states: the disconnect handler decrements the pointer even when the
    removed index equals the pointer. -/
theorem c1_disconnect_gives_previous :
    currentId c1Room = some "a" ∧
    currentId c1Room ≠ some "c" ∧
    c1Room.order = ["a", "c"] ∧
    (alGet c1Room.players "a").map Player.pa = some 4 := by decide

/-- Claim C2: an endTurn issued by the current acting participant of a
    non-empty room succeeds, and the new current participant exists in
    players and has actionPoints equal to actionPointsMax; in a
    single-participant room the same participant stays current. -/
theorem c2_endTurn_replenishes (rooms : Rooms) (sid roomId : String)
    (room : Room) (hroom : alGet rooms roomId = some room)
    (hwf : ∀ x ∈ room.order, (alGet room.players x).isSome = true)
    (hcur : currentId room = some sid) :
    ∃ rooms2 room2 cid p,
      handleEndTurn rooms sid roomId = some rooms2 ∧
      alGet rooms2 roomId = some room2 ∧
      currentId room2 = some cid ∧
      alGet room2.players cid = some p ∧
      p.pa = p.paMax ∧
      (room.order = [sid] → cid = sid) := by
  have hne2 : room.order ≠ [] := List.ne_nil_of_mem (currentId_mem hcur)
  have hl : room.order.length ≠ 0 := fun hh => hne2 (List.length_eq_zero.mp hh)
  have hc1s : (currentId
      { room with turnIndex := (room.turnIndex + 1) % room.order.length }).isSome
        = true :=
    currentId_isSome hl
  rcases Option.isSome_iff_exists.mp hc1s with ⟨cid, hc1⟩
  have hcidmem : cid ∈ room.order := by
    have h3 := currentId_mem hc1
    exact h3
  rcases Option.isSome_iff_exists.mp (hwf cid hcidmem) with ⟨p, hp⟩
  have hst := startTurn_eq_of hc1 hp
  refine ⟨alSet rooms roomId (startTurn
      { room with turnIndex := (room.turnIndex + 1) % room.order.length }),
    startTurn { room with turnIndex := (room.turnIndex + 1) % room.order.length },
    cid, { p with pa := p.paMax }, ?_, ?_, ?_, ?_, rfl, ?_⟩
  · rw [handleEndTurn]
    simp only [hroom]
    rw [endTurnRoom_eq hl hcur]
    rfl
  · exact alGet_alSet_self _ _ _
  · rw [currentId_startTurn]
    exact hc1
  · rw [hst]
    exact alGet_alSet_self _ _ _
  · intro hsolo
    have h2 := hcidmem
    rw [hsolo] at h2
    exact List.mem_singleton.mp h2

/-- Witness for C2 at the concrete solo room (A has spent a point, endTurn
    replenishes A again). -/
theorem c2_witness :
    (alGet c2Rooms "R" = some c2Room ∧
     (∀ x ∈ c2Room.order, (alGet c2Room.players x).isSome = true) ∧
     currentId c2Room = some "A") ∧
    (∃ rooms2 room2 cid p,
      handleEndTurn c2Rooms "A" "R" = some rooms2 ∧
      alGet rooms2 "R" = some room2 ∧
      currentId room2 = some cid ∧
      alGet room2.players cid = some p ∧
      p.pa = p.paMax ∧
      (c2Room.order = ["A"] → cid = "A")) :=
  ⟨⟨by decide, by decide, by decide⟩,
    c2_endTurn_replenishes c2Rooms "A" "R" c2Room (by decide) (by decide)
      (by decide)⟩

/-- Claim C3: a setPawn or meditate issued by a participant who is not the
    current acting participant is rejected silently: the handler result is
    none (so no broadcast), and the registry state is completely unchanged. -/
theorem c3_nonCurrent_silent (rooms : Rooms) (sid roomId : String)
    (index : Int) (room : Room) (hroom : alGet rooms roomId = some room)
    (hne : currentId room ≠ some sid) :
    handleSetPawn rooms sid roomId index = none ∧
    handleMeditate rooms sid roomId = none ∧
    applyCmd rooms (Cmd.setPawn sid roomId index) = rooms ∧
    applyCmd rooms (Cmd.meditate sid roomId) = rooms := by
  have h1 : handleSetPawn rooms sid roomId index = none := by
    rw [handleSetPawn]
    simp only [hroom]
    rw [setPawnRoom_nonCurrent hne]
    rfl
  have h2 : handleMeditate rooms sid roomId = none := by
    rw [handleMeditate]
    simp only [hroom]
    rw [meditateRoom_nonCurrent hne]
    rfl
  refine ⟨h1, h2, ?_, ?_⟩
  · rw [applyCmd, h1]
    rfl
  · rw [applyCmd, h2]
    rfl

/-- Witness for C3: B is not current in the two-player room, so both
    commands are silently rejected. -/
theorem c3_witness :
    (alGet c3Rooms "R" = some c3Room ∧ currentId c3Room ≠ some "B") ∧
    (handleSetPawn c3Rooms "B" "R" 3 = none ∧
     handleMeditate c3Rooms "B" "R" = none ∧
     applyCmd c3Rooms (Cmd.setPawn "B" "R" 3) = c3Rooms ∧
     applyCmd c3Rooms (Cmd.meditate "B" "R") = c3Rooms) :=
  ⟨⟨by decide, by decide⟩,
    c3_nonCurrent_silent c3Rooms "B" "R" 3 c3Room (by decide) (by decide)⟩

/-- Claim C4: in every registry state reachable by a command sequence from
    the empty registry, every player of every room satisfies
    0 ≤ actionPoints ≤ actionPointsMax. -/
theorem c4_ap_bounds (cs : List Cmd) (roomId sid : String) (room : Room)
    (p : Player) (hroom : alGet (runCmds [] cs) roomId = some room)
    (hp : alGet room.players sid = some p) :
    0 ≤ p.pa ∧ p.pa ≤ p.paMax :=
  (runCmds_WF cs (roomId, room) (alGet_mem hroom)).2.2 (sid, p) (alGet_mem hp)

/-- Witness for C4 after a concrete spending sequence. -/
theorem c4_witness : 0 ≤ c4P.pa ∧ c4P.pa ≤ c4P.paMax :=
  c4_ap_bounds c4Cmds "R" "A" c4Room c4P (by decide) (by decide)

/-- Claim C5 counterexample: in a reachable room whose marker-map insertion
    order (B before A) is the reverse of the seat order, the snapshot board
    list follows the map insertion order, not the order re-derived from the
    players list as the claim states. -/
theorem c5_counterexample :
    (publicState c5Room).board.selections ≠ selectionsBySeatOrder c5Room ∧
    (publicState c5Room).board.selections = [("B", 3), ("A", 5)] ∧
    selectionsBySeatOrder c5Room = [("A", 5), ("B", 3)] := by decide

/-- Claim C5 (amended): the snapshot players list is the seat-sorted
    permutation of the players map values and the currentPlayerId is the
    turn pointer derivation, but the two board lists are the occupancy map
    entry lists in the map (insertion) order, not re-derived from players. -/
theorem c5_amended (room : Room) :
    List.Sorted seatLE (publicState room).players ∧
    List.Perm (publicState room).players (room.players.map Prod.snd) ∧
    (publicState room).currentPlayerId = currentId room ∧
    (publicState room).board.selections = room.board.selections ∧
    (publicState room).board.pawns = room.board.pawns := by
  refine ⟨List.sorted_insertionSort seatLE _, List.perm_insertionSort seatLE _,
    rfl, ?_, ?_⟩
  · exact map_entry_id room.board.selections
  · exact map_entry_id room.board.pawns

/-- Claim C6 counterexample: a join with the whitespace-only room id
    " " passes the falsy guard, so the command is accepted (a broadcast is
    produced) and a room keyed by the trimmed id "" is created. -/
theorem c6_counterexample :
    (handleJoin [] "s1" " " "Alice").isSome = true ∧
    alHas ((handleJoin [] "s1" " " "Alice").getD []) "" = true := by decide

/-- Claim C6 (amended): a join whose room id or display name is missing or
    empty is rejected silently: the handler result is none and the registry
    is unchanged, so no room is created and no broadcast is produced.
    Whitespace-only values pass the guard (see the counterexample). -/
theorem c6_empty_join_rejected (rooms : Rooms) (sid roomId name : String)
    (h : roomId = "" ∨ name = "") :
    handleJoin rooms sid roomId name = none ∧
    applyCmd rooms (Cmd.join sid roomId name) = rooms := by
  have h1 : handleJoin rooms sid roomId name = none := by
    rw [handleJoin, if_pos h]
  refine ⟨h1, ?_⟩
  rw [applyCmd, h1]
  rfl

/-- Witness for the amended C6 at a concrete empty-name-free input. -/
theorem c6_witness :
    (("" : String) = "" ∨ ("Alice" : String) = "") ∧
    (handleJoin [] "s1" "" "Alice" = none ∧
     applyCmd [] (Cmd.join "s1" "" "Alice") = []) :=
  ⟨Or.inl rfl, c6_empty_join_rejected [] "s1" "" "Alice" (Or.inl rfl)⟩

/-- Claim C7: when the only remaining participant of a room disconnects,
    the room is removed from the registry, no broadcast is produced for
    that room, and a later getOrCreateRoom for the same id yields the
    brand-new empty room. -/
theorem c7_last_leave_destroys (rooms : Rooms) (sid roomId : String)
    (room : Room) (p : Player) (hnd : (rooms.map Prod.fst).Nodup)
    (hroom : alGet rooms roomId = some room)
    (hplayers : room.players = [(sid, p)]) (horder : room.order = [sid]) :
    alGet (handleDisconnect sid rooms).1 roomId = none ∧
    roomId ∉ (handleDisconnect sid rooms).2 ∧
    (getOrCreateRoom (handleDisconnect sid rooms).1 roomId).2 =
      freshRoom roomId := by
  obtain ⟨h1, h2⟩ := disconnect_last_aux hplayers horder rooms hnd hroom
  exact ⟨h1, h2, getOrCreateRoom_of_none h1⟩

/-- Witness for C7 at the concrete solo registry. -/
theorem c7_witness :
    ((c7Rooms.map Prod.fst).Nodup ∧ alGet c7Rooms "R" = some c7Room ∧
     c7Room.players = [("A", c7P)] ∧ c7Room.order = ["A"]) ∧
    (alGet (handleDisconnect "A" c7Rooms).1 "R" = none ∧
     "R" ∉ (handleDisconnect "A" c7Rooms).2 ∧
     (getOrCreateRoom (handleDisconnect "A" c7Rooms).1 "R").2 =
       freshRoom "R") :=
  ⟨⟨by decide, by decide, by decide, by decide⟩,
    c7_last_leave_destroys c7Rooms "A" "R" c7Room c7P (by decide) (by decide)
      (by decide) (by decide)⟩

/-- Claim C8: in every reachable registry state, currentId of a room is
    none exactly when the turn order is empty, and when it is some cid
    that cid has a player record. -/
theorem c8_current_in_players (cs : List Cmd) (roomId : String) (room : Room)
    (hroom : alGet (runCmds [] cs) roomId = some room) :
    (currentId room = none ↔ room.order = []) ∧
    (∀ cid, currentId room = some cid →
      (alGet room.players cid).isSome = true) := by
  have hWF := runCmds_WF cs (roomId, room) (alGet_mem hroom)
  refine ⟨currentId_eq_none_iff, ?_⟩
  intro cid hc
  exact hWF.2.1 cid (currentId_mem hc)

/-- Witness for C8 after a concrete join/endTurn sequence (B is current). -/
theorem c8_witness :
    (currentId c8Room = none ↔ c8Room.order = []) ∧
    (alGet c8Room.players "B").isSome = true :=
  have h := c8_current_in_players c8Cmds "R" c8Room (by decide)
  ⟨h.1, h.2 "B" (by decide)⟩

/-- Claim C9: a join for a participant id already present only rewrites
    that player record with the new display name: the room id, turn order,
    turn index, board maps and every other player lookup are unchanged, and
    the rejoining player keeps seat, actionPoints and healthPoints. -/
theorem c9_rejoin_updates_only_name (room : Room) (sid nm : String)
    (p : Player) (hp : alGet room.players sid = some p) :
    (joinRoomCore sid nm room).id = room.id ∧
    (joinRoomCore sid nm room).order = room.order ∧
    (joinRoomCore sid nm room).turnIndex = room.turnIndex ∧
    (joinRoomCore sid nm room).board = room.board ∧
    alGet (joinRoomCore sid nm room).players sid = some { p with name := nm } ∧
    (∀ x, x ≠ sid →
      alGet (joinRoomCore sid nm room).players x = alGet room.players x) := by
  have heq : joinRoomCore sid nm room =
      { room with players := alSet room.players sid { p with name := nm } } := by
    rw [joinRoomCore]
    simp only [hp]
  rw [heq]
  refine ⟨rfl, rfl, rfl, rfl, alGet_alSet_self _ _ _, ?_⟩
  intro x hx
  exact alGet_alSet_ne room.players sid x _ hx

/-- Witness for C9 at a concrete two-player room. -/
theorem c9_witness :
    alGet c9Room.players "A" = some c9P ∧
    alGet (joinRoomCore "A" "New" c9Room).players "A" =
      some { c9P with name := "New" } ∧
    (joinRoomCore "A" "New" c9Room).order = c9Room.order ∧
    alGet (joinRoomCore "A" "New" c9Room).players "B" =
      alGet c9Room.players "B" :=
  have h := c9_rejoin_updates_only_name c9Room "A" "New" c9P (by decide)
  ⟨by decide, h.2.2.2.2.1, h.2.1, h.2.2.2.2.2 "B" (by decide)⟩

/-- Claim C10: after A and B join (seats 1 and 2), A leaves and C joins,
    the seat counter (player count plus one) hands C seat 2 as well, so two
    distinct players of the same room hold the same seat number. -/
theorem c10_duplicate_seats :
    (alGet c10Room.players "B").map Player.seat = some 2 ∧
    (alGet c10Room.players "C").map Player.seat = some 2 := by decide

end Heroes
